import Mathlib

/-!
Formal model of the expense-tracker ledger core (`src/script.js`).

The source is a client-side ledger: load/normalize persisted records, filter by
date range and category, aggregate balance and per-month summaries, export CSV.
JavaScript numbers are modelled as exact rationals (`ℚ`), with NaN modelled as
`none : Option ℚ` where it can arise; JS `Date` time values are modelled as
millisecond instants (`Int`), with an Invalid Date (NaN time value) modelled as
`none : Option Int`.  The local timezone is a parameter `off`: the offset in
minutes east of UTC (local wall time = UTC + off minutes).
-/

/-- The `type` field of a well-formed ledger entry (comment at `script.js:36-37`). -/
inductive TxType where
  | income
  | expense
deriving DecidableEq, Repr

/-- A well-formed ledger entry, the §3 data model and the shape documented at
`script.js:36-37`.  This is the type consumed by the filter engine, aggregator,
export encoder and CRUD operations. -/
structure Entry where
  id : Int
  name : String
  amount : ℚ
  type : TxType
  date : String
  category : String
deriving DecidableEq, Repr

/- ------------------------------------------------------------------
   Date machinery: ECMAScript time values for the strings the app uses
   ------------------------------------------------------------------ -/

/-- Days since 1970-01-01 of a proleptic-Gregorian civil date (Hinnant's
`days_from_civil`); models ECMAScript `MakeDay`, and like `MakeDay` it extends
linearly in `d` beyond the end of the month. -/
def daysFromCivil (y m d : Int) : Int :=
  let yy := if m ≤ 2 then y - 1 else y
  let era := Int.fdiv yy 400
  let yoe := yy - era * 400
  let mp := Int.emod (m + 9) 12
  let doy := Int.fdiv (153 * mp + 2) 5 + d - 1
  let doe := yoe * 365 + Int.fdiv yoe 4 - Int.fdiv yoe 100 + doy
  era * 146097 + doe - 719468

/-- Numeric value of a decimal digit character. -/
def digitVal (c : Char) : Int := (c.toNat : Int) - 48

/-- Parse a strict `YYYY-MM-DD` string into (year, month, day); `none` on any
other shape.  Only this ISO date-only form is modelled: it is the only form the
app produces (`<input type="date">` values and `toISOString().slice(0,10)`). -/
def parseYMD (s : String) : Option (Int × Int × Int) :=
  match s.data with
  | [y1, y2, y3, y4, h1, m1, m2, h2, d1, d2] =>
    if y1.isDigit ∧ y2.isDigit ∧ y3.isDigit ∧ y4.isDigit ∧ h1 = '-' ∧
        m1.isDigit ∧ m2.isDigit ∧ h2 = '-' ∧ d1.isDigit ∧ d2.isDigit then
      some (digitVal y1 * 1000 + digitVal y2 * 100 + digitVal y3 * 10 + digitVal y4,
            digitVal m1 * 10 + digitVal m2,
            digitVal d1 * 10 + digitVal d2)
    else none
  | _ => none

/-- Day number of a `YYYY-MM-DD` string; `none` models an Invalid Date
(month out of range / wrong shape), per the ECMAScript Date Time String Format. -/
def parseDateOnly (s : String) : Option Int :=
  (parseYMD s).bind fun p =>
    if 1 ≤ p.2.1 ∧ p.2.1 ≤ 12 ∧ 1 ≤ p.2.2 ∧ p.2.2 ≤ 31 then
      some (daysFromCivil p.1 p.2.1 p.2.2)
    else none

/-- Milliseconds per day. -/
def msPerDay : Int := 86400000

/-- A JS `Date`'s time value in milliseconds since the epoch; `none` is an
Invalid Date (NaN time value). -/
abbrev JsDate := Option Int

/-- `new Date(s)` on a date-only string (`script.js:97-98`): ECMAScript parses
date-only ISO strings as **UTC** midnight. -/
def newDateDateOnly (s : String) : JsDate :=
  (parseDateOnly s).map (fun d => d * msPerDay)

/-- `new Date(t.date + 'T00:00:00')` (`script.js:111`): a date-time string with
no offset is interpreted in **local** time, so this is local midnight; `off` is
the local offset in minutes east of UTC. -/
def entryInstant (off : Int) (s : String) : JsDate :=
  (parseDateOnly s).map (fun d => d * msPerDay - off * 60000)

/-- `d.setHours(23,59,59,999)` (`script.js:100-102`): move instant `i` to the
last millisecond of the **local** calendar day containing it. -/
def setHoursEndOfDay (off : Int) (i : Int) : Int :=
  let localDay := Int.fdiv (i + off * 60000) msPerDay
  localDay * msPerDay + 86399999 - off * 60000

/-- JS `<` on two Dates: valueOf comparison; any comparison with NaN is false. -/
def jsLt : JsDate → JsDate → Bool
  | some a, some b => decide (a < b)
  | _, _ => false

/-- JS `>` on two Dates: valueOf comparison; any comparison with NaN is false. -/
def jsGt : JsDate → JsDate → Bool
  | some a, some b => decide (b < a)
  | _, _ => false

/- ------------------------------------------------------------------
   Filter engine (script.js:96-117)
   ------------------------------------------------------------------ -/

/-- The raw values of the three filter form controls; `""` is an empty input. -/
structure FilterInput where
  startV : String
  endV : String
  categoryV : String

/-- The result of `getFilters` (`script.js:96-105`): `start`/`stop` are `null`
(`none`) or `Date` objects (`some`, possibly Invalid); `stop` is pushed to the
end of its local day.  The source calls `stop` "end" (a Lean keyword). -/
structure Filters where
  start : Option JsDate
  stop : Option JsDate
  category : String

/-- `getFilters` (`script.js:96-105`). -/
def getFilters (off : Int) (fi : FilterInput) : Filters :=
  { start := if fi.startV = "" then none else some (newDateDateOnly fi.startV)
    stop := if fi.endV = "" then none
            else some ((newDateDateOnly fi.endV).map (setHoursEndOfDay off))
    category := if fi.categoryV = "" then "all" else fi.categoryV }

/-- The filter predicate body (`script.js:110-116`). -/
def passes (off : Int) (f : Filters) (t : Entry) : Bool :=
  let tD := entryInstant off t.date
  if (match f.start with | some s => jsLt tD s | none => false) then false
  else if (match f.stop with | some e => jsGt tD e | none => false) then false
  else if f.category ≠ "all" ∧ t.category ≠ f.category then false
  else true

/-- `applyFilters` (`script.js:108-117`) with the DOM reads of `getFilters`
made explicit parameters. -/
def applyFilters (off : Int) (fi : FilterInput) (l : List Entry) : List Entry :=
  l.filter (passes off (getFilters off fi))

/- ------------------------------------------------------------------
   Formatting and the CSV encoder (script.js:80-83, 316-321)
   ------------------------------------------------------------------ -/

/-- Decimal digit character for `n` in `[0, 9]`. -/
def digitChar (n : Int) : Char := Char.ofNat (48 + n.toNat)

/-- `formatAmount` (`script.js:80-83`): `(Number(num) || 0).toFixed(2)`.
`toFixed(2)` is modelled as exact decimal rendering of the rational rounded to
cents (round-half-up on the magnitude, sign prepended). -/
def formatAmount (q : ℚ) : String :=
  let cents : Int := round (|q| * 100)
  (if q < 0 then "-" else "") ++ toString (cents / 100) ++ "." ++
    String.mk [digitChar (cents % 100 / 10), digitChar (cents % 100 % 10)]

/-- The literal string of a transaction type, as stored in JS. -/
def typeStr : TxType → String
  | .income => "income"
  | .expense => "expense"

/-- `String(cell).replace(/"/g, '""')` (`script.js:321`): double every
double-quote character; no other character changes. -/
def escapeQuotes (s : String) : String :=
  String.mk (s.data.flatMap fun c => if c = '"' then ['"', '"'] else [c])

/-- One quoted CSV cell (`script.js:321`). -/
def csvCell (s : String) : String := "\"" ++ escapeQuotes s ++ "\""

/-- The cell values pushed for one transaction (`script.js:319`); `String(id)`
on an integral JS number is plain decimal. -/
def entryCells (t : Entry) : List String :=
  [toString t.id, t.name, formatAmount t.amount, typeStr t.type, t.date, t.category]

/-- `Array.prototype.join(sep)`. -/
def joinSep (sep : String) : List String → String
  | [] => ""
  | [x] => x
  | x :: y :: xs => x ++ sep ++ joinSep sep (y :: xs)

/-- The CSV text built by `exportToCsv` (`script.js:316-321`); the Blob /
download plumbing (`script.js:322-332`) is presentation-layer I/O outside the
encoder. -/
def exportToCsv (l : List Entry) : String :=
  let rows := ["id", "name", "amount", "type", "date", "category"] :: l.map entryCells
  joinSep "\n" (rows.map fun r => joinSep "," (r.map csvCell))

/-- A CSV row as described by spec §4.5: each field double-quoted with the
doubling escape, fields comma-joined in the fixed column order. -/
def csvRowSpec (t : Entry) : String :=
  csvCell (toString t.id) ++ "," ++ csvCell t.name ++ "," ++ csvCell (formatAmount t.amount)
    ++ "," ++ csvCell (typeStr t.type) ++ "," ++ csvCell t.date ++ "," ++ csvCell t.category

/-- Spec-side CSV encoder, written from the words of spec §4.5: the header row
followed by one row per entry in input order, newline-joined. -/
def encodeSpec (l : List Entry) : String :=
  l.foldl (fun acc t => acc ++ "\n" ++ csvRowSpec t)
    "\"id\",\"name\",\"amount\",\"type\",\"date\",\"category\""

/- ------------------------------------------------------------------
   Aggregator: balance (script.js:189-201) and monthly summary (236-250)
   ------------------------------------------------------------------ -/

/-- `totalIncome` of `updateBalance` (`script.js:192-194`). -/
def totalIncome (l : List Entry) : ℚ :=
  (l.filter fun t => t.type == TxType.income).foldl (fun acc t => acc + t.amount) 0

/-- `totalExpense` of `updateBalance` (`script.js:196-198`). -/
def totalExpense (l : List Entry) : ℚ :=
  (l.filter fun t => t.type == TxType.expense).foldl (fun acc t => acc + t.amount) 0

/-- The balance number computed by `updateBalance` (`script.js:200`). -/
def balanceOf (l : List Entry) : ℚ := totalIncome l - totalExpense l

/-- One row of the monthly summary (`script.js:245-247`). -/
structure SummaryRow where
  month : String
  income : ℚ
  expense : ℚ
  net : ℚ
deriving DecidableEq, Repr

/-- The group key of an entry (`script.js:239`):
`(t.date && t.date.slice(0,7)) || currentMonth` — the fallback fires only for a
falsy (empty) date string; `nowMonth` is `new Date().toISOString().slice(0,7)`. -/
def monthOf (nowMonth : String) (t : Entry) : String :=
  if t.date = "" then nowMonth else t.date.take 7

/-- Add an amount to the (income, expense) pair per the branch at
`script.js:242-243`. -/
def bump (ty : TxType) (a : ℚ) (p : ℚ × ℚ) : ℚ × ℚ :=
  match ty with
  | .income => (p.1 + a, p.2)
  | .expense => (p.1, p.2 + a)

/-- Insertion-ordered `Map` update (`script.js:240-243`): update the existing
group in place, or append a fresh `(k, f (0,0))` group at the end. -/
def upsert (k : String) (f : ℚ × ℚ → ℚ × ℚ) :
    List (String × ℚ × ℚ) → List (String × ℚ × ℚ)
  | [] => [(k, f (0, 0))]
  | (k1, v) :: g => if k1 = k then (k1, f v) :: g else (k1, v) :: upsert k f g

/-- One `forEach` step of `computeMonthlySummary` (`script.js:238-244`). -/
def stepGroup (nowMonth : String) (g : List (String × ℚ × ℚ)) (t : Entry) :
    List (String × ℚ × ℚ) :=
  upsert (monthOf nowMonth t) (bump t.type t.amount) g

/-- Lexicographic code-point comparison of character lists (`as ≤ bs`). -/
def lexLeb : List Char → List Char → Bool
  | [], _ => true
  | _ :: _, [] => false
  | c :: cs, d :: ds =>
    if c.toNat < d.toNat then true
    else if d.toNat < c.toNat then false
    else lexLeb cs ds

/-- Code-point string order (`a ≤ b`); models `localeCompare`, with which it
agrees on `YYYY-MM` month keys. -/
def strLeb (a b : String) : Bool := lexLeb a.data b.data

/-- The descending-month order of `script.js:248`
(`(a, b) => b.month.localeCompare(a.month)`). -/
def summaryRel (a b : SummaryRow) : Prop := strLeb b.month a.month = true

instance : DecidableRel summaryRel :=
  fun a b => inferInstanceAs (Decidable (strLeb b.month a.month = true))

/-- `computeMonthlySummary` (`script.js:236-250`): fold the entries into
insertion-ordered month groups, turn each into a row with `net = income −
expense`, and sort by month descending (all keys are distinct, so any sort
matches the JS `Array.prototype.sort`). -/
def computeMonthlySummary (nowMonth : String) (l : List Entry) : List SummaryRow :=
  let groups := l.foldl (stepGroup nowMonth) []
  let rows := groups.map fun p => SummaryRow.mk p.1 p.2.1 p.2.2 (p.2.1 - p.2.2)
  List.insertionSort summaryRel rows

/- ------------------------------------------------------------------
   CRUD (script.js:288-309)
   ------------------------------------------------------------------ -/

/-- `addTransaction` (`script.js:288-301`), with the generated id
`Date.now() + Math.floor(Math.random()*1000)` supplied as the parameter
`newId`; the persistence/rendering calls (`script.js:298-300`) are side effects
on collaborators outside the pure state change.  Note the core stores
`Number(amount)` as given — the `Math.abs` is applied by the form handler at
`script.js:386`, outside this function. -/
def addTransaction (newId : Int) (name : String) (amount : ℚ) (ty : TxType)
    (date : String) (category : String) (l : List Entry) : List Entry :=
  l ++ [{ id := newId
          name := name.trim
          amount := amount
          type := ty
          date := date
          category := if category.trim = "" then "Uncategorized" else category.trim }]

/-- `deleteTransaction` (`script.js:304-309`): keep every entry whose id
differs (`t.id !== id`). -/
def deleteTransaction (id : Int) (l : List Entry) : List Entry :=
  l.filter fun t => t.id != id

/- ------------------------------------------------------------------
   Persistence load path: JSON values and normalization (script.js:50-73)
   ------------------------------------------------------------------ -/

/-- A parsed JSON value (the possible results of `JSON.parse`).  Numbers are
exact rationals. -/
inductive Json where
  | null
  | bool (b : Bool)
  | num (q : ℚ)
  | str (s : String)
  | arr (elems : List Json)
  | obj (fields : List (String × Json))

/-- JS property access `t.k`: throws a TypeError exactly when `t` is `null`
(JSON has no `undefined`); yields `undefined` (`none`) on non-object values;
on objects, the last binding wins (`JSON.parse` duplicate-key behaviour). -/
def getField : Json → String → Except Unit (Option Json)
  | .null, _ => .error ()
  | .obj fs, k => .ok (((fs.filter fun p => p.1 == k).getLast?).map Prod.snd)
  | _, _ => .ok none

/-- The left operand of `x ?? d`: a JSON `null` behaves like a missing value. -/
def nonNull : Option Json → Option Json
  | some .null => none
  | o => o

/-- Value of a list of decimal digit characters. -/
def digitsToNat (cs : List Char) : ℕ :=
  cs.foldl (fun a c => a * 10 + (c.toNat - 48)) 0

/-- Parse an unsigned decimal numeral, with optional fraction part, consuming
the whole input; `none` on anything else. -/
def parseUnsigned (cs : List Char) : Option ℚ :=
  let ip := cs.takeWhile Char.isDigit
  let rest := cs.dropWhile Char.isDigit
  match rest with
  | [] => if ip = [] then none else some (digitsToNat ip : ℚ)
  | '.' :: rest1 =>
    let fp := rest1.takeWhile Char.isDigit
    let rest2 := rest1.dropWhile Char.isDigit
    if rest2 = [] ∧ (ip ≠ [] ∨ fp ≠ []) then
      some ((digitsToNat ip : ℚ) + (digitsToNat fp : ℚ) / ((10 : ℚ) ^ fp.length))
    else none
  | _ => none

/-- `Number(string)`: trimmed empty string is 0, otherwise an optionally signed
decimal literal, else NaN (`none`).  Exponent/hex/`Infinity` forms are not
modelled — nothing in the app or the claims produces them. -/
def parseJsNumber (s : String) : Option ℚ :=
  match s.trim.data with
  | [] => some 0
  | '-' :: cs => (parseUnsigned cs).map (fun q => -q)
  | '+' :: cs => parseUnsigned cs
  | cs => parseUnsigned cs

/-- `Number(v)` coercion of a JSON value to a JS number; `none` is NaN.
Arrays coerce through their string form; only the empty array (which coerces
to 0) is modelled — other arrays are mapped to NaN, and objects are NaN. -/
def jsNumber : Json → Option ℚ
  | .null => some 0
  | .bool b => some (if b then 1 else 0)
  | .num q => some q
  | .str s => parseJsNumber s
  | .arr [] => some 0
  | .arr (_ :: _) => none
  | .obj _ => none

/-- The `t.type === 'expense' ? 'expense' : 'income'` ternary
(`script.js:63`) applied to the raw `type` property. -/
def normType : Option Json → String
  | some (.str s) => if s = "expense" then "expense" else "income"
  | _ => "income"

/-- The loosely-typed in-memory transaction produced by the load-time
normalization (`script.js:58-67`): only `amount` is coerced to a number and
`type` to one of the two string literals; every other field keeps whatever
non-null JSON value was stored (the `??` defaults fire only for missing or
null properties). -/
structure RawEntry where
  id : Json
  name : Json
  amount : Option ℚ
  type : String
  date : Json
  category : Json

/-- One step of the normalizing `map` (`script.js:58-67`).  Throws
(`Except.error`) exactly when the record is `null`; `nowDate` is
`new Date().toISOString().slice(0,10)` and `fid` the freshly generated
`Date.now() + Math.floor(Math.random()*1000)`. -/
def normalizeOne (nowDate : String) (fid : Int) (t : Json) : Except Unit RawEntry := do
  let idF ← getField t "id"
  let nameF ← getField t "name"
  let amountF ← getField t "amount"
  let typeF ← getField t "type"
  let dateF ← getField t "date"
  let categoryF ← getField t "category"
  return { id := (nonNull idF).getD (.num (fid : ℚ))
           name := (nonNull nameF).getD (.str "Unnamed")
           amount := jsNumber ((nonNull amountF).getD (.num 0))
           type := normType typeF
           date := (nonNull dateF).getD (.str nowDate)
           category := (nonNull categoryF).getD (.str "Uncategorized") }

/-- `parsed.map(t => ...)` over the records (`script.js:58`), threading the
per-record fresh-id generator `gen` by position; an exception from any record
aborts the whole map, as in JS. -/
def normalizeAll (nowDate : String) (gen : ℕ → Int) : ℕ → List Json → Except Unit (List RawEntry)
  | _, [] => .ok []
  | i, t :: ts => do
    let e ← normalizeOne nowDate (gen i) t
    let es ← normalizeAll nowDate gen (i + 1) ts
    return e :: es

/-- The three persisted-blob states `loadTransactions` distinguishes
(`script.js:51-53`): a localStorage miss, a blob `JSON.parse` throws on, or a
successfully parsed JSON value. -/
inductive LoadInput where
  | absent
  | unparseable
  | parsed (j : Json)

/-- `Array.isArray`. -/
def isArrJson : Json → Bool
  | .arr _ => true
  | _ => false

/-- `loadTransactions` (`script.js:50-73`): absent blob → `[]`; parse failure →
caught, `[]`; non-array parse → `[]`; array → normalized records, with any
exception thrown inside the normalizing `map` caught by the same `try/catch`
and resetting to `[]`.  Total: it never propagates an error. -/
def loadTransactions (nowDate : String) (gen : ℕ → Int) : LoadInput → List RawEntry
  | .absent => []
  | .unparseable => []
  | .parsed (.arr xs) =>
    match normalizeAll nowDate gen 0 xs with
    | .ok es => es
    | .error _ => []
  | .parsed _ => []

/- ------------------------------------------------------------------
   Spec-side characterizations used to state the aggregator claims
   ------------------------------------------------------------------ -/

/-- Lookup in the insertion-ordered group list, defaulting to `(0, 0)` — the
value a fresh group starts from. -/
def lookup0 : List (String × ℚ × ℚ) → String → ℚ × ℚ
  | [], _ => (0, 0)
  | (k1, v) :: g, k => if k1 = k then v else lookup0 g k

/-- Total income the summary should attribute to month key `k`: the sum of the
amounts of the income entries grouped under `k`. -/
def incSum (nowMonth k : String) (l : List Entry) : ℚ :=
  (l.map fun t =>
    if monthOf nowMonth t = k ∧ t.type = TxType.income then t.amount else 0).sum

/-- Total expense the summary should attribute to month key `k`. -/
def expSum (nowMonth k : String) (l : List Entry) : ℚ :=
  (l.map fun t =>
    if monthOf nowMonth t = k ∧ t.type = TxType.expense then t.amount else 0).sum

/-- The signed contribution of one entry to the balance: `+amount` for income,
`-amount` for expense (spec §3). -/
def signedAmount (t : Entry) : ℚ :=
  match t.type with
  | .income => t.amount
  | .expense => -t.amount

/- ------------------------------------------------------------------
   Order facts about the month comparison
   ------------------------------------------------------------------ -/

/-- The code-point order is total. -/
theorem lexLeb_total : ∀ as bs : List Char, lexLeb as bs = true ∨ lexLeb bs as = true := by
  intro as
  induction as with
  | nil => exact fun bs => Or.inl rfl
  | cons a as ih =>
    intro bs
    cases bs with
    | nil => exact Or.inr rfl
    | cons b bs =>
      rcases Nat.lt_trichotomy a.toNat b.toNat with h | h | h
      · left
        simp [lexLeb, h]
      · rcases ih bs with h1 | h1
        · left
          simp [lexLeb, show ¬ a.toNat < b.toNat by omega,
            show ¬ b.toNat < a.toNat by omega, h1]
        · right
          simp [lexLeb, show ¬ a.toNat < b.toNat by omega,
            show ¬ b.toNat < a.toNat by omega, h1]
      · right
        simp [lexLeb, h]

/-- The code-point order is transitive. -/
theorem lexLeb_trans : ∀ as bs cs : List Char,
    lexLeb as bs = true → lexLeb bs cs = true → lexLeb as cs = true := by
  intro as
  induction as with
  | nil => exact fun bs cs _ _ => rfl
  | cons a as ih =>
    intro bs cs h1 h2
    cases bs with
    | nil => simp [lexLeb] at h1
    | cons b bs =>
      cases cs with
      | nil => simp [lexLeb] at h2
      | cons c cs =>
        rcases Nat.lt_trichotomy a.toNat b.toNat with hab | hab | hab
        · rcases Nat.lt_trichotomy b.toNat c.toNat with hbc | hbc | hbc
          · simp [lexLeb, show a.toNat < c.toNat by omega]
          · simp [lexLeb, show a.toNat < c.toNat by omega]
          · simp [lexLeb, show ¬ b.toNat < c.toNat by omega, hbc] at h2
        · rcases Nat.lt_trichotomy b.toNat c.toNat with hbc | hbc | hbc
          · simp [lexLeb, show a.toNat < c.toNat by omega]
          · have h1a : lexLeb as bs = true := by
              simpa [lexLeb, show ¬ a.toNat < b.toNat by omega,
                show ¬ b.toNat < a.toNat by omega] using h1
            have h2a : lexLeb bs cs = true := by
              simpa [lexLeb, show ¬ b.toNat < c.toNat by omega,
                show ¬ c.toNat < b.toNat by omega] using h2
            simpa [lexLeb, show ¬ a.toNat < c.toNat by omega,
              show ¬ c.toNat < a.toNat by omega] using ih bs cs h1a h2a
          · simp [lexLeb, show ¬ b.toNat < c.toNat by omega, hbc] at h2
        · simp [lexLeb, show ¬ a.toNat < b.toNat by omega, hab] at h1

instance : IsTotal SummaryRow summaryRel :=
  ⟨fun a b => lexLeb_total b.month.data a.month.data⟩

instance : IsTrans SummaryRow summaryRel :=
  ⟨fun a b c h1 h2 => lexLeb_trans c.month.data b.month.data a.month.data h2 h1⟩

/- ------------------------------------------------------------------
   Theorems
   ------------------------------------------------------------------ -/

/-- Claim C1 is false of the code and true of its own documentation, so this
records the code bug.  The filter's date bounds are **not** inclusive
independently of the local UTC offset: `new Date('YYYY-MM-DD')` parses the
bound as UTC midnight while `new Date(date + 'T00:00:00')` parses the entry
date as local midnight.  At offset 0 both bounds are inclusive, but in
UTC−05:00 (`off = -300`) an entry dated exactly `endDate` is excluded (the
end-of-day adjustment lands on the previous local day), and in UTC+02:00
(`off = 120`) an entry dated exactly `startDate` is excluded (local midnight
precedes the UTC-midnight bound). -/
theorem filter_bounds_timezone_bug :
    (applyFilters 0 ⟨"", "2024-01-10", "all"⟩ [⟨1, "t", 1, .income, "2024-01-10", "C"⟩]
        = [⟨1, "t", 1, .income, "2024-01-10", "C"⟩]) ∧
    (applyFilters (-300) ⟨"", "2024-01-10", "all"⟩ [⟨1, "t", 1, .income, "2024-01-10", "C"⟩]
        = []) ∧
    (applyFilters 120 ⟨"2024-01-05", "", "all"⟩ [⟨1, "t", 1, .income, "2024-01-05", "C"⟩]
        = []) ∧
    (applyFilters 0 ⟨"2024-01-05", "", "all"⟩ [⟨1, "t", 1, .income, "2024-01-05", "C"⟩]
        = [⟨1, "t", 1, .income, "2024-01-05", "C"⟩]) :=
  ⟨by decide, by decide, by decide, by decide⟩

/-- Claim C8: filtering with category `"all"` and empty date bounds returns the
input unchanged, and for every criteria the output is a sublist of the input —
the filter is stable and never resorts. -/
theorem applyFilters_identity_and_stable :
    (∀ (off : Int) (l : List Entry), applyFilters off ⟨"", "", "all"⟩ l = l) ∧
    (∀ (off : Int) (fi : FilterInput) (l : List Entry),
      (applyFilters off fi l).Sublist l) := by
  constructor
  · intro off l
    have hp : ∀ t ∈ l, passes off (getFilters off ⟨"", "", "all"⟩) t = true := by
      intro t _
      simp [passes, getFilters]
    exact List.filter_eq_self.mpr hp
  · intro off fi l
    exact List.filter_sublist l

/-- Claim C3 counterexample: `addTransaction` stores the numeric input as
given, not its absolute value — called with amount `-5`, the appended entry's
amount is `-5`, which differs from `|-5| = 5`. -/
theorem addTransaction_abs_counterexample :
    (addTransaction 1 "Lunch" (-5) .expense "2024-01-05" "Food" []).map Entry.amount
      = [-5] ∧ ¬ ((-5 : ℚ) = |(-5 : ℚ)|) :=
  ⟨rfl, by norm_num⟩

/-- Claim C3 (amended): `addTransaction` appends exactly one new entry at the
end, leaving the existing entries unchanged; the entry carries the freshly
generated id, the trimmed name, the category defaulted to `"Uncategorized"`
when blank after trimming, and the amount **as given** (the absolute value is
taken by the presentation-layer form handler at `script.js:386`, not by the
core). -/
theorem addTransaction_spec (newId : Int) (name : String) (amount : ℚ) (ty : TxType)
    (date : String) (category : String) (l : List Entry) :
    ∃ e, addTransaction newId name amount ty date category l = l ++ [e] ∧
      e.id = newId ∧ e.name = name.trim ∧ e.amount = amount ∧ e.type = ty ∧
      e.date = date ∧
      e.category = (if category.trim = "" then "Uncategorized" else category.trim) :=
  ⟨_, rfl, rfl, rfl, rfl, rfl, rfl, rfl⟩

/-- Claim C4: an absent blob, an unparseable blob, and a blob parsing to a
non-array value all load as the empty ledger; `loadTransactions` is a total
function (the `try/catch` is part of the model), so no error reaches the
caller. -/
theorem loadTransactions_failsafe (nowDate : String) (gen : ℕ → Int) :
    loadTransactions nowDate gen .absent = [] ∧
    loadTransactions nowDate gen .unparseable = [] ∧
    ∀ j : Json, isArrJson j = false → loadTransactions nowDate gen (.parsed j) = [] := by
  refine ⟨rfl, rfl, ?_⟩
  intro j hj
  cases j <;> simp_all [loadTransactions, isArrJson]

/-- Witness for C4 at a concrete non-array blob. -/
theorem loadTransactions_failsafe_witness :
    isArrJson (.num 3) = false ∧
    loadTransactions "2026-10-11" (fun _ => 0) (.parsed (.num 3)) = [] :=
  ⟨rfl, (loadTransactions_failsafe "2026-10-11" (fun _ => 0)).2.2 (.num 3) rfl⟩

/-- Claim C9: deleting an absent id is a no-op, and deleting a present (unique)
id removes exactly that entry, keeping all others in their original relative
order. -/
theorem deleteTransaction_spec (id : Int) :
    (∀ l : List Entry, (∀ t ∈ l, t.id ≠ id) → deleteTransaction id l = l) ∧
    (∀ (l1 l2 : List Entry) (t : Entry), t.id = id → (∀ u ∈ l1 ++ l2, u.id ≠ id) →
      deleteTransaction id (l1 ++ t :: l2) = l1 ++ l2) := by
  constructor
  · intro l h
    exact List.filter_eq_self.mpr fun a ha => by simp [h a ha]
  · intro l1 l2 t ht h
    have h1 : List.filter (fun u => u.id != id) l1 = l1 :=
      List.filter_eq_self.mpr fun a ha => by simp [h a (List.mem_append_left _ ha)]
    have h2 : List.filter (fun u => u.id != id) l2 = l2 :=
      List.filter_eq_self.mpr fun a ha => by simp [h a (List.mem_append_right _ ha)]
    simp [deleteTransaction, List.filter_append, List.filter_cons, ht, h1, h2]

/-- Witness for C9: delete of the present id 1 removes exactly that entry;
delete of the absent id 9 is a no-op. -/
theorem deleteTransaction_spec_witness :
    deleteTransaction 1
        [⟨2, "a", 1, .income, "2024-01-01", "X"⟩, ⟨1, "b", 2, .expense, "2024-01-02", "Y"⟩,
         ⟨3, "c", 3, .income, "2024-01-03", "Z"⟩]
      = [⟨2, "a", 1, .income, "2024-01-01", "X"⟩, ⟨3, "c", 3, .income, "2024-01-03", "Z"⟩] ∧
    deleteTransaction 9 [⟨2, "a", 1, .income, "2024-01-01", "X"⟩]
      = [⟨2, "a", 1, .income, "2024-01-01", "X"⟩] :=
  ⟨by
    have := (deleteTransaction_spec 1).2
      [⟨2, "a", 1, .income, "2024-01-01", "X"⟩] [⟨3, "c", 3, .income, "2024-01-03", "Z"⟩]
      ⟨1, "b", 2, .expense, "2024-01-02", "Y"⟩ rfl (by decide)
    simpa using this,
   (deleteTransaction_spec 9).1 [⟨2, "a", 1, .income, "2024-01-01", "X"⟩] (by decide)⟩

/-- Claim C2 counterexample: normalization keeps an empty-string name, keeps an
empty-string category (the `??` default fires only for missing/null fields,
not for `""`), and keeps a negative amount — violating the claimed non-empty
name, non-empty category and non-negative amount invariants at this record. -/
theorem normalize_invariants_counterexample :
    normalizeAll "2026-10-11" (fun _ => 0) 0
        [.obj [("name", .str ""), ("category", .str ""), ("amount", .num (-5))]]
      = .ok [{ id := .num 0, name := .str "", amount := some (-5), type := "income",
               date := .str "2026-10-11", category := .str "" }] ∧
    ("" : String).length = 0 ∧ ((-5 : ℚ) < 0) :=
  ⟨rfl, rfl, by norm_num⟩

/-- Every value the type ternary can produce is one of the two enum strings. -/
theorem normType_enum (o : Option Json) :
    normType o = "income" ∨ normType o = "expense" := by
  match o with
  | none => exact Or.inl rfl
  | some .null | some (.bool _) | some (.num _) | some (.arr _) | some (.obj _) =>
    exact Or.inl rfl
  | some (.str s) =>
    by_cases h : s = "expense"
    · right; simp [normType, h]
    · left; simp [normType, h]

/-- A non-null record normalizes without throwing, and its `type` is forced
into the two-value enum. -/
theorem normalizeOne_ok (nowDate : String) (fid : Int) (t : Json) (h : t ≠ Json.null) :
    ∃ e, normalizeOne nowDate fid t = .ok e ∧
      (e.type = "income" ∨ e.type = "expense") := by
  match t with
  | .null => exact absurd rfl h
  | .bool b => refine ⟨_, rfl, ?_⟩; exact normType_enum none
  | .num q => refine ⟨_, rfl, ?_⟩; exact normType_enum none
  | .str s => refine ⟨_, rfl, ?_⟩; exact normType_enum none
  | .arr xs => refine ⟨_, rfl, ?_⟩; exact normType_enum none
  | .obj fs =>
    refine ⟨_, rfl, ?_⟩
    exact normType_enum (((fs.filter fun p => p.1 == "type").getLast?).map Prod.snd)

/-- Claim C2 (amended): on any sequence of non-null raw records, normalization
never throws, drops no record, and forces every entry's `type` to exactly
`"income"` or `"expense"`.  The other §3 invariants claimed do **not** hold:
only missing or null fields are defaulted, so empty-string names and
categories survive verbatim, dates are not validated against `YYYY-MM-DD`, and
amounts keep their sign (and can be NaN for non-numeric strings). -/
theorem normalize_total_type_enum (nowDate : String) (gen : ℕ → Int) :
    ∀ (i : ℕ) (xs : List Json), (∀ t ∈ xs, t ≠ Json.null) →
      ∃ es, normalizeAll nowDate gen i xs = .ok es ∧ es.length = xs.length ∧
        ∀ e ∈ es, e.type = "income" ∨ e.type = "expense" := by
  intro i xs
  induction xs generalizing i with
  | nil => exact fun _ => ⟨[], rfl, rfl, by simp⟩
  | cons t ts ih =>
    intro h
    obtain ⟨es, hes, hlen, hty⟩ := ih (i + 1) fun u hu => h u (List.mem_cons_of_mem _ hu)
    obtain ⟨e, he, hety⟩ := normalizeOne_ok nowDate (gen i) t (h t (List.mem_cons_self _ _))
    refine ⟨e :: es, ?_, by simp [hlen], ?_⟩
    · simp only [normalizeAll, he, hes]
      rfl
    · intro x hx
      rcases List.mem_cons.mp hx with rfl | hx
      · exact hety
      · exact hty x hx

/-- Witness for the amended C2 at a one-record sequence. -/
theorem normalize_total_type_enum_witness :
    (∀ t ∈ [Json.obj [("name", Json.str "X")]], t ≠ Json.null) ∧
    ∃ es, normalizeAll "2026-10-11" (fun _ => 0) 0 [Json.obj [("name", Json.str "X")]]
        = .ok es ∧ es.length = 1 ∧ ∀ e ∈ es, e.type = "income" ∨ e.type = "expense" := by
  constructor
  · intro t ht
    simp only [List.mem_singleton] at ht
    subst ht
    simp
  · simpa using normalize_total_type_enum "2026-10-11" (fun _ => 0) 0
      [Json.obj [("name", Json.str "X")]] (by
        intro t ht
        simp only [List.mem_singleton] at ht
        subst ht
        simp)

/-- Claim C10 counterexample: a persisted array holding a well-formed record
and the non-object element `5` is **not** discarded — property access on a JS
number yields `undefined` without throwing, so the number is defaulted
per-field and kept alongside the well-formed record, contradicting the claimed
all-or-nothing reset for any non-object element. -/
theorem load_nonobject_record_kept_counterexample :
    (loadTransactions "2026-10-11" (fun _ => 7)
        (.parsed (.arr [.obj [("id", .num 1), ("name", .str "A"), ("amount", .num 2),
                              ("type", .str "expense"), ("date", .str "2024-01-05"),
                              ("category", .str "Food")],
                        .num 5]))).length = 2 ∧
    (loadTransactions "2026-10-11" (fun _ => 7)
        (.parsed (.arr [.obj [("id", .num 1), ("name", .str "A"), ("amount", .num 2),
                              ("type", .str "expense"), ("date", .str "2024-01-05"),
                              ("category", .str "Food")],
                        .num 5]))).map RawEntry.name
      = [.str "A", .str "Unnamed"] :=
  ⟨rfl, rfl⟩

/-- A null record makes the normalizing map throw, whatever its position. -/
theorem normalizeAll_error_of_null (nowDate : String) (gen : ℕ → Int) :
    ∀ (xs : List Json) (i : ℕ), Json.null ∈ xs →
      normalizeAll nowDate gen i xs = .error () := by
  intro xs
  induction xs with
  | nil => intro i h; cases h
  | cons t ts ih =>
    intro i h
    rcases List.mem_cons.mp h with rfl | hmem
    · rfl
    · cases het : normalizeOne nowDate (gen i) t with
      | error e =>
        simp only [normalizeAll, het]
        rfl
      | ok e =>
        simp only [normalizeAll, het, ih (i + 1) hmem]
        rfl

/-- Claim C10 (amended): the all-or-nothing reset happens exactly for elements
on which property access throws — a JSON `null` anywhere in the persisted
array makes the whole load yield the empty ledger; non-null non-object
elements (numbers, strings, booleans, arrays) are instead defaulted per-field
and kept. -/
theorem load_null_record_resets (nowDate : String) (gen : ℕ → Int) (xs : List Json)
    (h : Json.null ∈ xs) :
    loadTransactions nowDate gen (.parsed (.arr xs)) = [] := by
  simp [loadTransactions, normalizeAll_error_of_null nowDate gen xs 0 h]

/-- Witness for the amended C10: a null element after a well-formed record
resets the whole load. -/
theorem load_null_record_resets_witness :
    Json.null ∈ [Json.obj [("name", Json.str "A")], Json.null] ∧
    loadTransactions "2026-10-11" (fun _ => 0)
        (.parsed (.arr [Json.obj [("name", Json.str "A")], Json.null])) = [] :=
  ⟨by simp, load_null_record_resets "2026-10-11" (fun _ => 0) _ (by simp)⟩

/-- Claim C5 counterexample: an entry with the unparseable (but non-empty) date
`"notadate!"` is grouped under the first 7 characters of that string, not under
the current month's key — the current-month fallback fires only for an
empty/missing date. -/
theorem monthlySummary_unparseable_date_counterexample :
    (computeMonthlySummary "2026-10"
        [⟨1, "g", 5, .income, "notadate!", "C"⟩]).map SummaryRow.month
      = ["notadat"] ∧ ("notadat" : String) ≠ "2026-10" :=
  ⟨by decide, by decide⟩

/-- Updating key `k` applies the update at `k` and leaves every other key's
accumulated pair unchanged. -/
theorem lookup0_upsert (k k1 : String) (f : ℚ × ℚ → ℚ × ℚ)
    (g : List (String × ℚ × ℚ)) :
    lookup0 (upsert k f g) k1
      = if k = k1 then f (lookup0 g k) else lookup0 g k1 := by
  induction g with
  | nil => by_cases h : k = k1 <;> simp [upsert, lookup0, h]
  | cons p g ih =>
    obtain ⟨k2, v⟩ := p
    by_cases h2 : k2 = k
    · subst h2
      by_cases h1 : k2 = k1 <;> simp [upsert, lookup0, h1]
    · have h2s : ¬ k = k2 := fun hh => h2 hh.symm
      by_cases h1 : k2 = k1
      · subst h1
        simp [upsert, lookup0, h2, h2s]
      · simp [upsert, lookup0, h2, h1, ih]

/-- Folding the entries over the groups adds, at every key, exactly the
income/expense attributable to that key. -/
theorem lookup0_foldl (nowMonth : String) (l : List Entry) :
    ∀ (g : List (String × ℚ × ℚ)) (k : String),
      (lookup0 (l.foldl (stepGroup nowMonth) g) k).1
          = (lookup0 g k).1 + incSum nowMonth k l ∧
      (lookup0 (l.foldl (stepGroup nowMonth) g) k).2
          = (lookup0 g k).2 + expSum nowMonth k l := by
  induction l with
  | nil => intro g k; simp [incSum, expSum]
  | cons t l ih =>
    intro g k
    obtain ⟨ih1, ih2⟩ := ih (stepGroup nowMonth g t) k
    have hinc : incSum nowMonth k (t :: l)
        = (if monthOf nowMonth t = k ∧ t.type = TxType.income then t.amount else 0)
          + incSum nowMonth k l := by
      simp [incSum]
    have hexp : expSum nowMonth k (t :: l)
        = (if monthOf nowMonth t = k ∧ t.type = TxType.expense then t.amount else 0)
          + expSum nowMonth k l := by
      simp [expSum]
    have hup : lookup0 (stepGroup nowMonth g t) k
        = if monthOf nowMonth t = k then bump t.type t.amount (lookup0 g k)
          else lookup0 g k := by
      unfold stepGroup
      rw [lookup0_upsert]
      by_cases hm : monthOf nowMonth t = k <;> simp [hm]
    rw [List.foldl_cons]
    constructor
    · rw [ih1, hinc, hup]
      by_cases hm : monthOf nowMonth t = k
      · cases hty : t.type <;> simp [hm, hty, bump] <;> ring
      · simp [hm]
    · rw [ih2, hexp, hup]
      by_cases hm : monthOf nowMonth t = k
      · cases hty : t.type <;> simp [hm, hty, bump] <;> ring
      · simp [hm]

/-- Updating a key either leaves the key list unchanged (key present) or
appends the key at the end (key fresh). -/
theorem keys_upsert (k : String) (f : ℚ × ℚ → ℚ × ℚ) (g : List (String × ℚ × ℚ)) :
    (upsert k f g).map Prod.fst
      = if k ∈ g.map Prod.fst then g.map Prod.fst else g.map Prod.fst ++ [k] := by
  induction g with
  | nil => simp [upsert]
  | cons p g ih =>
    obtain ⟨k2, v⟩ := p
    by_cases h : k2 = k
    · subst h
      simp [upsert]
    · have h1 : ¬ k = k2 := fun hh => h hh.symm
      by_cases hk : k ∈ g.map Prod.fst <;>
        simp [upsert, h, h1, hk, ih]

/-- A key occurs among the folded groups iff some entry is grouped under it
(starting from initial groups `g`). -/
theorem mem_keys_foldl (nowMonth : String) (l : List Entry) :
    ∀ (g : List (String × ℚ × ℚ)) (k : String),
      k ∈ (l.foldl (stepGroup nowMonth) g).map Prod.fst
        ↔ k ∈ g.map Prod.fst ∨ ∃ t ∈ l, monthOf nowMonth t = k := by
  induction l with
  | nil => intro g k; simp
  | cons t l ih =>
    intro g k
    have hstep : k ∈ (stepGroup nowMonth g t).map Prod.fst
        ↔ k ∈ g.map Prod.fst ∨ monthOf nowMonth t = k := by
      unfold stepGroup
      rw [keys_upsert]
      by_cases hm : monthOf nowMonth t ∈ g.map Prod.fst
      · rw [if_pos hm]
        constructor
        · exact fun h => Or.inl h
        · rintro (h | h)
          · exact h
          · exact h ▸ hm
      · rw [if_neg hm]
        simp only [List.mem_append, List.mem_singleton]
        constructor
        · rintro (h | h)
          · exact Or.inl h
          · exact Or.inr h.symm
        · rintro (h | h)
          · exact Or.inl h
          · exact Or.inr h.symm
    rw [List.foldl_cons, ih, hstep, List.exists_mem_cons_iff]
    tauto

/-- Folding preserves distinctness of the group keys. -/
theorem nodup_keys_foldl (nowMonth : String) (l : List Entry) :
    ∀ g : List (String × ℚ × ℚ), ((g.map Prod.fst).Nodup) →
      (((l.foldl (stepGroup nowMonth) g).map Prod.fst).Nodup) := by
  induction l with
  | nil => exact fun g h => h
  | cons t l ih =>
    intro g h
    rw [List.foldl_cons]
    apply ih
    unfold stepGroup
    rw [keys_upsert]
    by_cases hm : monthOf nowMonth t ∈ g.map Prod.fst
    · rwa [if_pos hm]
    · rw [if_neg hm]
      simp [List.nodup_append, h, hm]

/-- With distinct keys, membership determines the looked-up pair. -/
theorem lookup0_of_mem (k : String) (v : ℚ × ℚ) :
    ∀ g : List (String × ℚ × ℚ), ((g.map Prod.fst).Nodup) → (k, v) ∈ g →
      lookup0 g k = v := by
  intro g
  induction g with
  | nil => intro _ hm; cases hm
  | cons p g ih =>
    intro hg hm
    obtain ⟨k2, v2⟩ := p
    rcases List.mem_cons.mp hm with heq | hmem
    · injection heq with hk hv
      subst hk
      subst hv
      simp [lookup0]
    · have hk : k2 ≠ k := by
        intro he
        apply (List.nodup_cons.mp hg).1
        have h3 : (k, v).1 ∈ g.map Prod.fst := List.mem_map_of_mem Prod.fst hmem
        rw [he]
        exact h3
      simp only [lookup0, if_neg hk]
      exact ih (List.nodup_cons.mp hg).2 hmem

/-- Claim C5 (amended): `computeMonthlySummary` groups entries by the first 7
characters of their date (an entry with an empty/missing date — and only such
an entry — falling back to the current month's key, so no entry is dropped;
a non-empty unparseable date keeps its own first-7-characters key), sums
income and expense separately per group with `net = income − expense`, emits
one row per occurring key, and orders the rows by month descending. -/
theorem computeMonthlySummary_spec (nowMonth : String) (l : List Entry) :
    (∀ r ∈ computeMonthlySummary nowMonth l,
        r.net = r.income - r.expense ∧
        r.income = incSum nowMonth r.month l ∧
        r.expense = expSum nowMonth r.month l) ∧
    ((computeMonthlySummary nowMonth l).map SummaryRow.month).Nodup ∧
    (∀ k, k ∈ (computeMonthlySummary nowMonth l).map SummaryRow.month
        ↔ ∃ t ∈ l, monthOf nowMonth t = k) ∧
    List.Sorted summaryRel (computeMonthlySummary nowMonth l) := by
  have hperm : List.Perm (computeMonthlySummary nowMonth l)
      ((l.foldl (stepGroup nowMonth) []).map
        fun p => SummaryRow.mk p.1 p.2.1 p.2.2 (p.2.1 - p.2.2)) :=
    List.perm_insertionSort summaryRel _
  have hnodupg : (((l.foldl (stepGroup nowMonth) []).map Prod.fst).Nodup) :=
    nodup_keys_foldl nowMonth l [] (by simp)
  refine ⟨?_, ?_, ?_, ?_⟩
  · intro r hr
    have hr2 := hperm.mem_iff.mp hr
    obtain ⟨p, hp, rfl⟩ := List.mem_map.mp hr2
    have hl0 : lookup0 (l.foldl (stepGroup nowMonth) []) p.1 = p.2 :=
      lookup0_of_mem p.1 p.2 _ hnodupg (by simpa using hp)
    obtain ⟨hf1, hf2⟩ := lookup0_foldl nowMonth l [] p.1
    rw [hl0] at hf1 hf2
    simp only [lookup0] at hf1 hf2
    exact ⟨rfl, by simpa using hf1, by simpa using hf2⟩
  · rw [List.Perm.nodup_iff (hperm.map SummaryRow.month)]
    simpa [List.map_map, Function.comp] using hnodupg
  · intro k
    rw [(hperm.map SummaryRow.month).mem_iff, List.map_map]
    have hcomp : (SummaryRow.month ∘
        fun p : String × ℚ × ℚ => SummaryRow.mk p.1 p.2.1 p.2.2 (p.2.1 - p.2.2))
        = Prod.fst := rfl
    rw [hcomp]
    simpa using mem_keys_foldl nowMonth l [] k
  · exact List.sorted_insertionSort summaryRel _

/-- Witness for the amended C5 at the spec §8 example entries: some produced
row (the month keys are `["2024-02", "2024-01"]`) carries its group's sums. -/
theorem computeMonthlySummary_spec_witness :
    (computeMonthlySummary "2026-10"
        [⟨1, "s", 100, .income, "2024-01-05", "Salary"⟩,
         ⟨2, "f", 30, .expense, "2024-01-10", "Food"⟩,
         ⟨3, "s2", 50, .income, "2024-02-01", "Salary"⟩]).map SummaryRow.month
      = ["2024-02", "2024-01"] ∧
    ∃ r ∈ computeMonthlySummary "2026-10"
        [⟨1, "s", 100, .income, "2024-01-05", "Salary"⟩,
         ⟨2, "f", 30, .expense, "2024-01-10", "Food"⟩,
         ⟨3, "s2", 50, .income, "2024-02-01", "Salary"⟩],
      r.net = r.income - r.expense ∧
      r.income = incSum "2026-10" r.month
          [⟨1, "s", 100, .income, "2024-01-05", "Salary"⟩,
           ⟨2, "f", 30, .expense, "2024-01-10", "Food"⟩,
           ⟨3, "s2", 50, .income, "2024-02-01", "Salary"⟩] ∧
      r.expense = expSum "2026-10" r.month
          [⟨1, "s", 100, .income, "2024-01-05", "Salary"⟩,
           ⟨2, "f", 30, .expense, "2024-01-10", "Food"⟩,
           ⟨3, "s2", 50, .income, "2024-02-01", "Salary"⟩] := by
  have hmonths : (computeMonthlySummary "2026-10"
      [⟨1, "s", 100, .income, "2024-01-05", "Salary"⟩,
       ⟨2, "f", 30, .expense, "2024-01-10", "Food"⟩,
       ⟨3, "s2", 50, .income, "2024-02-01", "Salary"⟩]).map SummaryRow.month
      = ["2024-02", "2024-01"] := by decide
  refine ⟨hmonths, ?_⟩
  have hm : "2024-01" ∈ (computeMonthlySummary "2026-10"
      [⟨1, "s", 100, .income, "2024-01-05", "Salary"⟩,
       ⟨2, "f", 30, .expense, "2024-01-10", "Food"⟩,
       ⟨3, "s2", 50, .income, "2024-02-01", "Salary"⟩]).map SummaryRow.month := by
    rw [hmonths]
    simp
  obtain ⟨r, hr, _⟩ := List.mem_map.mp hm
  exact ⟨r, hr, (computeMonthlySummary_spec "2026-10"
      [⟨1, "s", 100, .income, "2024-01-05", "Salary"⟩,
       ⟨2, "f", 30, .expense, "2024-01-10", "Food"⟩,
       ⟨3, "s2", 50, .income, "2024-02-01", "Salary"⟩]).1 r hr⟩

/-- Updating one group changes the total net by the entry's signed amount. -/
theorem netSum_upsert (k : String) (ty : TxType) (a : ℚ) (g : List (String × ℚ × ℚ)) :
    ((upsert k (bump ty a) g).map fun p => p.2.1 - p.2.2).sum
      = ((g.map fun p => p.2.1 - p.2.2).sum)
        + (match ty with | .income => a | .expense => -a) := by
  induction g with
  | nil => cases ty <;> simp [upsert, bump]
  | cons p g ih =>
    obtain ⟨k2, v⟩ := p
    by_cases h : k2 = k
    · subst h
      cases ty <;> simp [upsert, bump] <;> ring
    · simp only [upsert, if_neg h, List.map_cons, List.sum_cons, ih]
      ring

/-- Folding the entries into groups accumulates the total net of all signed
amounts. -/
theorem netSum_foldl (nowMonth : String) (l : List Entry) :
    ∀ g : List (String × ℚ × ℚ),
      (((l.foldl (stepGroup nowMonth) g).map fun p => p.2.1 - p.2.2).sum)
        = ((g.map fun p => p.2.1 - p.2.2).sum) + (l.map signedAmount).sum := by
  induction l with
  | nil => intro g; simp
  | cons t l ih =>
    intro g
    rw [List.foldl_cons, ih (stepGroup nowMonth g t)]
    unfold stepGroup
    rw [netSum_upsert]
    cases hty : t.type <;> simp [signedAmount, hty] <;> ring

/-- The `reduce((acc, t) => acc + Number(t.amount), 0)` fold is a list sum. -/
theorem foldl_add_amount (l : List Entry) :
    ∀ c : ℚ, l.foldl (fun acc t => acc + t.amount) c = c + (l.map Entry.amount).sum := by
  induction l with
  | nil => intro c; simp
  | cons t l ih =>
    intro c
    rw [List.foldl_cons, ih, List.map_cons, List.sum_cons]
    ring

/-- `totalIncome` as a filtered sum. -/
theorem totalIncome_eq (l : List Entry) :
    totalIncome l = ((l.filter fun t => t.type == TxType.income).map Entry.amount).sum := by
  unfold totalIncome
  rw [foldl_add_amount, zero_add]

/-- `totalExpense` as a filtered sum. -/
theorem totalExpense_eq (l : List Entry) :
    totalExpense l = ((l.filter fun t => t.type == TxType.expense).map Entry.amount).sum := by
  unfold totalExpense
  rw [foldl_add_amount, zero_add]

/-- The balance is the sum of signed amounts. -/
theorem balanceOf_eq_signed (l : List Entry) :
    balanceOf l = (l.map signedAmount).sum := by
  induction l with
  | nil => simp [balanceOf, totalIncome, totalExpense]
  | cons t l ih =>
    rw [balanceOf, totalIncome_eq, totalExpense_eq] at ih ⊢
    cases hty : t.type <;>
      simp only [List.filter_cons, hty, signedAmount, List.map_cons, List.sum_cons] <;>
      simp <;>
      linarith [ih]

/-- Claim C6: the sum of the `net` values over all months of the summary
equals the balance of the same entry sequence (income sum minus expense sum). -/
theorem monthly_net_sum_eq_balance (nowMonth : String) (l : List Entry) :
    ((computeMonthlySummary nowMonth l).map SummaryRow.net).sum = balanceOf l := by
  have hperm : List.Perm (computeMonthlySummary nowMonth l)
      ((l.foldl (stepGroup nowMonth) []).map
        fun p => SummaryRow.mk p.1 p.2.1 p.2.2 (p.2.1 - p.2.2)) :=
    List.perm_insertionSort summaryRel _
  rw [(hperm.map SummaryRow.net).sum_eq, List.map_map]
  have hcomp : (SummaryRow.net ∘
      fun p : String × ℚ × ℚ => SummaryRow.mk p.1 p.2.1 p.2.2 (p.2.1 - p.2.2))
      = fun p : String × ℚ × ℚ => p.2.1 - p.2.2 := rfl
  rw [hcomp, netSum_foldl nowMonth l [], balanceOf_eq_signed]
  simp

/-- Joining with a separator merges the head step. -/
theorem joinSep_cons (sep a x : String) (xs : List String) :
    joinSep sep (a :: x :: xs) = joinSep sep ((a ++ sep ++ x) :: xs) := by
  cases xs with
  | nil => rfl
  | cons y ys => simp [joinSep, String.append_assoc]

/-- `join` is the left fold that the spec-side encoder uses. -/
theorem joinSep_eq_foldl (sep : String) (xs : List String) :
    ∀ a : String, joinSep sep (a :: xs) = xs.foldl (fun acc x => acc ++ sep ++ x) a := by
  induction xs with
  | nil => intro a; rfl
  | cons x xs ih =>
    intro a
    rw [joinSep_cons, ih (a ++ sep ++ x), List.foldl_cons]

/-- One encoded row, both ways. -/
theorem csvRow_eq (t : Entry) :
    joinSep "," ((entryCells t).map csvCell) = csvRowSpec t := by
  simp [entryCells, csvRowSpec, joinSep, String.append_assoc]

/-- A digit character for a value in `[0, 9]` really is a digit. -/
theorem digitChar_isDigit (x : ℤ) (h0 : 0 ≤ x) (h9 : x ≤ 9) :
    (digitChar x).isDigit = true := by
  unfold digitChar
  generalize hg : x.toNat = m
  have hm : m ≤ 9 := by omega
  interval_cases m <;> decide

/-- Claim C7: the CSV encoder emits the header row followed by one row per
entry in input order, newline-joined, every field double-quoted with
quote-doubling as the only escaping (the spec-side `encodeSpec` is built
directly from those words); the amount field always has exactly two decimal
places; and the spec §8 example encodes exactly as stated. -/
theorem exportToCsv_spec :
    (∀ l : List Entry, exportToCsv l = encodeSpec l) ∧
    (∀ q : ℚ, ∃ pre post : String,
        formatAmount q = pre ++ "." ++ post ∧ post.length = 2 ∧
        post.data.all Char.isDigit = true) ∧
    exportToCsv [⟨1, "Coffee \"Break\"", 9/2, .expense, "2024-01-10", "Food"⟩]
      = "\"id\",\"name\",\"amount\",\"type\",\"date\",\"category\"\n\"1\",\"Coffee \"\"Break\"\"\",\"4.50\",\"expense\",\"2024-01-10\",\"Food\"" := by
  refine ⟨?_, ?_, ?_⟩
  · intro l
    simp only [exportToCsv, encodeSpec, List.map_cons, List.map_map]
    rw [joinSep_eq_foldl, List.foldl_map]
    congr 1
    all_goals first
      | (funext acc t
         simp only [Function.comp_apply]
         rw [csvRow_eq])
      | rfl
  · intro q
    refine ⟨(if q < 0 then "-" else "") ++ toString (round (|q| * 100) / 100),
      String.mk [digitChar (round (|q| * 100) % 100 / 10),
                 digitChar (round (|q| * 100) % 100 % 10)], rfl, rfl, ?_⟩
    have hc : (0 : ℤ) ≤ round (|q| * 100) := by
      rw [round_eq]
      have hq : (0 : ℚ) ≤ |q| * 100 + 1 / 2 := by positivity
      exact Int.floor_nonneg.mpr hq
    have h1 : 0 ≤ round (|q| * 100) % 100 := Int.emod_nonneg _ (by norm_num)
    have h2 : round (|q| * 100) % 100 < 100 := Int.emod_lt_of_pos _ (by norm_num)
    simp only [List.all_cons, List.all_nil, Bool.and_true]
    rw [digitChar_isDigit _ (by omega) (by omega),
      digitChar_isDigit _ (by omega) (by omega)]
    rfl
  · have hfa : formatAmount (9/2 : ℚ) = "4.50" := by
      have h2 : round (|(9/2 : ℚ)| * 100) = (450 : ℤ) := by
        have h1 : |(9/2 : ℚ)| * 100 = ((450 : ℤ) : ℚ) := by
          rw [abs_of_nonneg (by norm_num : (0 : ℚ) ≤ (9/2 : ℚ))]
          norm_num
        rw [h1, round_intCast]
      simp only [formatAmount, h2]
      rw [if_neg (by norm_num : ¬ (9/2 : ℚ) < 0)]
      rfl
    have hcells : entryCells ⟨1, "Coffee \"Break\"", 9/2, .expense, "2024-01-10", "Food"⟩
        = ["1", "Coffee \"Break\"", formatAmount (9/2 : ℚ), "expense", "2024-01-10", "Food"] :=
      rfl
    simp only [exportToCsv, List.map_cons, List.map_nil, hcells, hfa]
    rfl
